import Mathlib

/-!
Verification of the FCCPD chat server (src/server.py) against its
natural-language specification.

The development shallowly embeds the relevant parts of server.py:
byte streams are lists of naturals (each value a byte), Python dicts
become association lists, Python sets become duplicate-free lists, and
the per-call effect of each method is a pure Lean function on an explicit
state record.  Exceptions become an explicit error type threaded through
Except.
-/

namespace ChatServer

/-! ## Frame codec (server.py lines 21-52)

A byte stream is a list of naturals.  Reads are modelled against a
stream that the peer then closes: a read of n bytes yields the first n
bytes when available, and hitting the end of the list is the peer
closing the connection.
-/

/-- server.py line 21: max frame size, 8 MiB. -/
def MAX_FRAME : Nat := 8 * 1024 * 1024

/-- The two exception kinds recv_frame/send_frame can raise:
ValueError on an oversized frame (the spec's ProtocolError /
FrameTooLarge) and ConnectionError on a stream that ends mid-read. -/
inductive FrameError where
  | frameTooLarge
  | connectionClosed
deriving DecidableEq

/-- struct.pack with a big-endian unsigned 32-bit format: the four bytes
of n, most significant first (server.py line 28). -/
def pack32 (n : Nat) : List Nat :=
  [n / 16777216 % 256, n / 65536 % 256, n / 256 % 256, n % 256]

/-- struct.unpack with a big-endian unsigned 32-bit format
(server.py line 46). -/
def unpack32 (b : List Nat) : Nat :=
  match b with
  | [b0, b1, b2, b3] => ((b0 * 256 + b1) * 256 + b2) * 256 + b3
  | _ => 0

/-- send_frame (server.py lines 23-29), at the level of the already
UTF-8-encoded payload bytes: refuse payloads above MAX_FRAME, otherwise
emit the 4-byte big-endian length header followed by the payload in one
sendall. -/
def send_frame (data : List Nat) : Except FrameError (List Nat) :=
  if data.length > MAX_FRAME then Except.error FrameError.frameTooLarge
  else Except.ok (pack32 data.length ++ data)

/-- recv_exact (server.py lines 31-38): loop reading until n bytes have
arrived; if the stream ends first, raise ConnectionError.  Returns the
n bytes read and the rest of the stream. -/
def recv_exact (stream : List Nat) (n : Nat) :
    Except FrameError (List Nat × List Nat) :=
  if stream.length < n then Except.error FrameError.connectionClosed
  else Except.ok (stream.take n, stream.drop n)

/-- recv_frame (server.py lines 40-52), at the byte level.  A clean
close before any header byte yields none (the EndOfStream sentinel);
a declared length above MAX_FRAME raises ValueError before any payload
read; a zero length returns immediately with an empty payload; otherwise
exactly length payload bytes are read.  Returns the payload bytes and
the unread rest of the stream. -/
def recv_frame (stream : List Nat) :
    Except FrameError (Option (List Nat × List Nat)) :=
  match stream with
  | [] => Except.ok none
  | _ :: _ =>
    match recv_exact stream 4 with
    | Except.error e => Except.error e
    | Except.ok (header, rest) =>
      let length := unpack32 header
      if length > MAX_FRAME then Except.error FrameError.frameTooLarge
      else if length = 0 then Except.ok (some ([], rest))
      else
        match recv_exact rest length with
        | Except.error e => Except.error e
        | Except.ok (data, rest2) => Except.ok (some (data, rest2))

/-- Python bytes.decode with utf-8 and errors replace, modelled as a
function from payload bytes to the list of decoded code points, each
undecodable byte contributing the replacement character U+FFFD.  The
round-trip theorems never depend on its internals: both sides of the
equations apply it to the same byte list. -/
def utf8Step (b0 : Nat) (rest : List Nat) : Nat × List Nat :=
  if b0 < 128 then (b0, rest)
  else if 194 ≤ b0 ∧ b0 ≤ 223 then
    match rest with
    | b1 :: rest2 =>
      if 128 ≤ b1 ∧ b1 ≤ 191 then ((b0 - 192) * 64 + (b1 - 128), rest2)
      else (65533, b1 :: rest2)
    | [] => (65533, [])
  else if 224 ≤ b0 ∧ b0 ≤ 239 then
    match rest with
    | b1 :: b2 :: rest3 =>
      if 128 ≤ b1 ∧ b1 ≤ 191 ∧ 128 ≤ b2 ∧ b2 ≤ 191 then
        ((b0 - 224) * 4096 + (b1 - 128) * 64 + (b2 - 128), rest3)
      else (65533, b1 :: b2 :: rest3)
    | short => (65533, short)
  else if 240 ≤ b0 ∧ b0 ≤ 244 then
    match rest with
    | b1 :: b2 :: b3 :: rest4 =>
      if 128 ≤ b1 ∧ b1 ≤ 191 ∧ 128 ≤ b2 ∧ b2 ≤ 191 ∧ 128 ≤ b3 ∧ b3 ≤ 191 then
        ((b0 - 240) * 262144 + (b1 - 128) * 4096 + (b2 - 128) * 64 +
          (b3 - 128), rest4)
      else (65533, b1 :: b2 :: b3 :: rest4)
    | short => (65533, short)
  else (65533, rest)

/-- Decode loop with fuel against the loop count; each step consumes at
least the lead byte, so a fuel of the byte count always suffices. -/
def utf8DecodeLoop : Nat → List Nat → List Nat
  | 0, _ => []
  | _, [] => []
  | fuel + 1, b0 :: rest =>
    let s := utf8Step b0 rest
    s.1 :: utf8DecodeLoop fuel s.2

/-- The whole decoder: one scalar per step. -/
def utf8DecodeReplace (bytes : List Nat) : List Nat :=
  utf8DecodeLoop bytes.length bytes

/-- recv_frame as the caller sees it: the decoded text of the received
payload (server.py line 52), still none for a clean EndOfStream. -/
def recv_frame_text (stream : List Nat) :
    Except FrameError (Option (List Nat)) :=
  match recv_frame stream with
  | Except.error e => Except.error e
  | Except.ok none => Except.ok none
  | Except.ok (some (data, _)) => Except.ok (some (utf8DecodeReplace data))

/-! ## Python text helpers

Python strings are modelled as lists of characters.  The helpers below
model the str methods used by the handler: strip, split (on whitespace
runs, dropping empty pieces), lower, startswith, and slicing. -/

/-- The whitespace characters relevant to str.strip and str.split for
the ASCII command syntax the server uses. -/
def isPySpace (c : Char) : Bool :=
  c = ' ' ∨ c = '\t' ∨ c = '\n' ∨ c = '\r'

/-- Python str.strip: drop whitespace from both ends. -/
def pyStrip (s : List Char) : List Char :=
  ((s.dropWhile isPySpace).reverse.dropWhile isPySpace).reverse

/-- Worker for pyStrip-then-split: accumulate the current word
(reversed) and cut at whitespace, dropping empty pieces.  Models
Python str.split with no argument. -/
def pySplitAux : List Char → List Char → List (List Char)
  | [], acc => if acc = [] then [] else [acc.reverse]
  | c :: rest, acc =>
    if isPySpace c then
      if acc = [] then pySplitAux rest []
      else acc.reverse :: pySplitAux rest []
    else pySplitAux rest (c :: acc)

/-- Python str.split with no argument: split on whitespace runs,
no empty pieces. -/
def pySplit (s : List Char) : List (List Char) :=
  pySplitAux s []

/-- Python str.startswith for the one-character command sigil. -/
def startsWithSlash (s : List Char) : Bool :=
  match s with
  | [] => false
  | c :: _ => c = '/'

/-- Python str.lower for the ASCII command words the server compares
against. -/
def pyLower (s : List Char) : List Char :=
  s.map Char.toLower

/-! ## Client session and connection handler (server.py lines 56-68,
190-204, 232-275)

A client id stands for one Client object (object identity in Python);
the connection handle is in one-to-one correspondence with it. -/

abbrev ClientId := Nat
abbrev RoomName := List Char

/-- The per-connection mutable state of a Client dataclass
(server.py lines 56-62), without the socket itself. -/
structure HClient where
  nickname : List Char
  room : Option RoomName
  alive : Bool
deriving DecidableEq

/-- The dataclass defaults (server.py lines 60-62): nickname anon,
no room, alive. -/
def initialClient : HClient :=
  { nickname := "anon".data, room := none, alive := true }

/-- Python truthiness of the Optional room field: None and the empty
string are both falsy. -/
def roomTruthy (r : Option RoomName) : Bool :=
  match r with
  | none => false
  | some s => s ≠ []

/-- The accept loop body (server.py lines 192-197): a fresh Client with
the dataclass defaults is inserted into the server-wide registry before
the handler thread is even spawned. -/
def acceptClient (clients : List (ClientId × HClient)) (cid : ClientId) :
    List (ClientId × HClient) :=
  clients ++ [(cid, initialClient)]

/-- The fixed text the handler sends on entry (server.py lines 233-236),
before reading anything from the peer. -/
def handlerGreeting : List Char :=
  "Bem-vindo ao servidor de chat!\nUse /help para ver os comandos. Defina um apelido com /nick <nome>.\n".data

/-- Whether the receive loop keeps running after one iteration. -/
inductive LoopStep where
  | exit
  | continue
deriving DecidableEq

/-- What one iteration of the receive loop does beyond updating the
client record. -/
inductive HandlerEffect where
  | nothing
  | replyNoRoom
  | chat (room : RoomName) (text : List Char)
  | command (line : List Char)
deriving DecidableEq

/-- One iteration of the Active receive loop (server.py lines 238-260):
end-of-stream exits; a frame that strips to nothing is skipped; a frame
starting with the slash sigil is dispatched to command handling with the
stripped text; otherwise, with no (truthy) current room an advisory
error is sent, and with a room the formatted chat line is broadcast.
The loop body itself never mutates the client record. -/
def handleFrame (c : HClient) (msg : Option (List Char)) :
    LoopStep × HClient × HandlerEffect :=
  match msg with
  | none => (LoopStep.exit, c, HandlerEffect.nothing)
  | some raw =>
    let m := pyStrip raw
    if m = [] then (LoopStep.continue, c, HandlerEffect.nothing)
    else if startsWithSlash m then
      (LoopStep.continue, c, HandlerEffect.command m)
    else
      match c.room with
      | none => (LoopStep.continue, c, HandlerEffect.replyNoRoom)
      | some r =>
        if r = [] then (LoopStep.continue, c, HandlerEffect.replyNoRoom)
        else
          (LoopStep.continue, c,
            HandlerEffect.chat r
              (('['::r) ++ ("] ".data ++ c.nickname ++ ": ".data ++ m)))

/-! ## Command dispatch (server.py lines 278-367)

Only the decision taken by _handle_command is modelled here: which
branch fires and with which (already truncated) argument.  The registry
mutations the branches perform are the registry operations modelled
below. -/

/-- The branch _handle_command takes, with its processed argument. -/
inductive CmdAction where
  | sendHelp
  | nickUsage
  | setNick (new : List Char)
  | createUsage
  | doCreate (room : RoomName)
  | joinUsage
  | doJoin (room : RoomName)
  | doRooms
  | leaveNoRoom
  | doLeave
  | whoNoRoom
  | doWho
  | doQuit
  | unknown (cmd : List Char)
deriving DecidableEq

/-- _handle_command (server.py lines 278-367): split the line on
whitespace, lowercase the command word, then dispatch.  The nickname
argument is truncated to 32 characters (line 303) and the room argument
of create and join to 48 characters (lines 317 and 329) before use. -/
def handle_command (c : HClient) (line : List Char) : CmdAction :=
  let parts := pySplit line
  let cmd := pyLower (parts.headD [])
  if cmd = "/help".data ∨ cmd = "/h".data ∨ cmd = "/?".data then
    CmdAction.sendHelp
  else if cmd = "/nick".data then
    match parts with
    | _ :: arg :: _ => CmdAction.setNick (arg.take 32)
    | _ => CmdAction.nickUsage
  else if cmd = "/create".data then
    match parts with
    | _ :: arg :: _ => CmdAction.doCreate (arg.take 48)
    | _ => CmdAction.createUsage
  else if cmd = "/join".data then
    match parts with
    | _ :: arg :: _ => CmdAction.doJoin (arg.take 48)
    | _ => CmdAction.joinUsage
  else if cmd = "/rooms".data then
    CmdAction.doRooms
  else if cmd = "/leave".data then
    if roomTruthy c.room then CmdAction.doLeave else CmdAction.leaveNoRoom
  else if cmd = "/who".data then
    if roomTruthy c.room then CmdAction.doWho else CmdAction.whoNoRoom
  else if cmd = "/quit".data then
    CmdAction.doQuit
  else
    CmdAction.unknown cmd

/-! ## Room registry (server.py lines 86-179)

The two shared dictionaries of ChatServer — rooms (room name to member
set) and clients (connection to Client) — become association lists with
duplicate-free member lists, together with the roomOf map carrying each
client object's mutable room field (client.room = None is an absent
key).  Each method's critical section becomes one pure function on this
state. -/

/-- Dict lookup over an association list (first match). -/
def alookup {α β : Type} [DecidableEq α] : List (α × β) → α → Option β
  | [], _ => none
  | (a, b) :: t, k => if a = k then some b else alookup t k

/-- Update the value at a key in place, leaving absent keys absent. -/
def aupdate {α β : Type} [DecidableEq α] (l : List (α × β)) (k : α)
    (f : β → β) : List (α × β) :=
  l.map (fun p => if p.1 = k then (p.1, f p.2) else p)

/-- Dict assignment d[k] = v: overwrite if present, append otherwise
(dict insertion order). -/
def astore {α β : Type} [DecidableEq α] (l : List (α × β)) (k : α)
    (v : β) : List (α × β) :=
  if (alookup l k).isSome then aupdate l k (fun _ => v) else l ++ [(k, v)]

/-- Dict deletion / pop of a key. -/
def aremove {α β : Type} [DecidableEq α] (l : List (α × β)) (k : α) :
    List (α × β) :=
  l.filter (fun p => p.1 ≠ k)

/-- The registry state: the rooms dict, every live Client object's room
field, and the server-wide clients dict (keyed here by the client id,
since connections and Client objects are in bijection). -/
structure RegState where
  rooms : List (RoomName × List ClientId)
  roomOf : List (ClientId × RoomName)
  registered : List ClientId
deriving DecidableEq

/-- The server starts with no rooms and no clients
(server.py lines 87-88); no room is seeded. -/
def initialServer : RegState :=
  { rooms := [], roomOf := [], registered := [] }

/-- Membership of a client in a room's member set,
self.rooms.get(r, set()) style. -/
def memberOf (st : RegState) (c : ClientId) (r : RoomName) : Bool :=
  decide (c ∈ ((alookup st.rooms r).getD []))

/-- Python set.add: no effect when already present. -/
def setAdd (m : List ClientId) (c : ClientId) : List ClientId :=
  if c ∈ m then m else m ++ [c]

/-- Python set.discard: remove if present. -/
def setDiscard (m : List ClientId) (c : ClientId) : List ClientId :=
  m.filter (fun x => x ≠ c)

/-- The critical section of join_room (server.py lines 120-132): create
the target room if absent; if the client's room field is truthy and the
client really is in that room's member set, discard it there and record
the old room for the departure notice; then add to the target room and
set the room field.  Returns the new state and the room to notify of a
departure (prev_to_notify). -/
def joinRoomLocked (st : RegState) (c : ClientId) (room : RoomName) :
    RegState × Option RoomName :=
  let rooms1 :=
    if (alookup st.rooms room).isSome then st.rooms
    else st.rooms ++ [(room, [])]
  let prevMember : Option RoomName :=
    match alookup st.roomOf c with
    | some r =>
      if r ≠ [] ∧ c ∈ ((alookup rooms1 r).getD []) then some r else none
    | none => none
  let rooms2 :=
    match prevMember with
    | some r => aupdate rooms1 r (fun m => setDiscard m c)
    | none => rooms1
  let rooms3 := aupdate rooms2 room (fun m => setAdd m c)
  ({ rooms := rooms3, roomOf := astore st.roomOf c room,
     registered := st.registered }, prevMember)

/-- The critical section of leave_room (server.py lines 142-148): if the
client's room field is truthy and the client is in that room's member
set, discard it and clear the field; otherwise do nothing.  Returns the
new state and the room to notify (room_to_notify). -/
def leaveRoomLocked (st : RegState) (c : ClientId) :
    RegState × Option RoomName :=
  match alookup st.roomOf c with
  | some r =>
    if r ≠ [] ∧ c ∈ ((alookup st.rooms r).getD []) then
      ({ rooms := aupdate st.rooms r (fun m => setDiscard m c),
         roomOf := aremove st.roomOf c,
         registered := st.registered }, some r)
    else (st, none)
  | none => (st, none)

/-- The second critical section of _broadcast (server.py lines 169-173):
every dead target is discarded from the broadcast room's member set and
popped from the server-wide clients dict.  The room field of the dead
clients is NOT touched. -/
def sweepDead (st : RegState) (room : RoomName) (dead : List ClientId) :
    RegState :=
  { rooms := aupdate st.rooms room (fun m => m.filter (fun x => x ∉ dead)),
    roomOf := st.roomOf,
    registered := st.registered.filter (fun x => x ∉ dead) }

/-- The outcome of one _broadcast call: the state after the dead sweep,
the snapshot of targets the message was sent to, and the liveness flags
after the send attempts. -/
structure BroadcastResult where
  state : RegState
  targets : List ClientId
  aliveAfter : ClientId → Bool

/-- _broadcast (server.py lines 161-179): snapshot the member set under
the lock, send to every snapshot member outside the lock — Client.send
(lines 64-68) swallows any send error and just flips the alive flag —
then sweep every target observed dead.  The function is total: no
branch raises to the caller.  alive gives each client's alive flag at
the start of the call; sendFails says whose send raises during this
call. -/
def broadcastModel (st : RegState) (room : RoomName)
    (alive sendFails : ClientId → Bool) : BroadcastResult :=
  let targets := (alookup st.rooms room).getD []
  let alive2 := fun c =>
    if c ∈ targets then alive c && !(sendFails c) else alive c
  let dead := targets.filter (fun c => !(alive2 c))
  { state := sweepDead st room dead, targets := targets,
    aliveAfter := alive2 }

/-- join_room as a whole (server.py lines 118-139): the critical
section, then a departure notice broadcast to the previous room when
one was recorded, then an arrival notice broadcast to the joined room;
the method returns the joined room name. -/
def join_room (st : RegState) (alive sendFails : ClientId → Bool)
    (c : ClientId) (room : RoomName) :
    RegState × (ClientId → Bool) × RoomName :=
  let r1 := joinRoomLocked st c room
  let afterPrev :=
    match r1.2 with
    | some prev =>
      let b := broadcastModel r1.1 prev alive sendFails
      (b.state, b.aliveAfter)
    | none => (r1.1, alive)
  let b2 := broadcastModel afterPrev.1 room afterPrev.2 sendFails
  (b2.state, b2.aliveAfter, room)

/-- leave_room as a whole (server.py lines 141-152): the critical
section, then a departure notice broadcast when a room was actually
left.  Returns the notified room as well, to state when a departure
notice went out. -/
def leave_room (st : RegState) (alive sendFails : ClientId → Bool)
    (c : ClientId) : RegState × Option RoomName × (ClientId → Bool) :=
  let r1 := leaveRoomLocked st c
  match r1.2 with
  | some room =>
    let b := broadcastModel r1.1 room alive sendFails
    (b.state, some room, b.aliveAfter)
  | none => (r1.1, none, alive)

/-- list_rooms (server.py lines 154-158): every entry of the rooms dict,
as the room name with its member count — emptied rooms included. -/
def list_rooms (st : RegState) : List (RoomName × Nat) :=
  st.rooms.map (fun p => (p.1, p.2.length))

/-- create_room (server.py lines 109-116): False when the room exists,
otherwise register an empty member set. -/
def create_room (st : RegState) (name : RoomName) : RegState × Bool :=
  if (alookup st.rooms name).isSome then (st, false)
  else ({ st with rooms := st.rooms ++ [(name, [])] }, true)

/-! ## Invariants (spec section 3, Room) -/

/-- The spec's full agreement invariant: a client is in room r's member
set exactly when its room field is r. -/
def MembershipInv (st : RegState) : Prop :=
  ∀ c r, memberOf st c r = true ↔ alookup st.roomOf c = some r

/-- The forward half: membership implies the room field points there. -/
def ForwardInv (st : RegState) : Prop :=
  ∀ c r, memberOf st c r = true → alookup st.roomOf c = some r

/-- At most one room holds any given client. -/
def AtMostOneRoom (st : RegState) : Prop :=
  ∀ c r1 r2, memberOf st c r1 = true → memberOf st c r2 = true → r1 = r2

/-- The agreement invariant restricted to clients still present in the
server-wide registry. -/
def RegisteredInv (st : RegState) : Prop :=
  ∀ c r, c ∈ st.registered →
    (memberOf st c r = true ↔ alookup st.roomOf c = some r)

/-- No client's room field holds the empty room name (true of every
state the server can reach: the command surface only ever passes
nonempty, whitespace-free room names). -/
def NoEmptyRoomName (st : RegState) : Prop :=
  ∀ c, alookup st.roomOf c ≠ some []

/-- Every room's member list is duplicate-free, as a Python set is. -/
def MembersNodup (st : RegState) : Prop :=
  ∀ p ∈ st.rooms, List.Nodup p.2

/-! ## Concrete states used in the witnesses and counterexamples -/

/-- One room, sala, whose sole member is client 0. -/
def c6State : RegState :=
  { rooms := [("sala".data, [0])], roomOf := [(0, "sala".data)],
    registered := [0] }

/-- One room, sala, with members 0 and 1. -/
def c5State : RegState :=
  { rooms := [("sala".data, [0, 1])],
    roomOf := [(0, "sala".data), (1, "sala".data)],
    registered := [0, 1] }

/-! ## Codec lemmas and claims C3, C4, C7 -/

theorem pack32_length (n : Nat) : (pack32 n).length = 4 := rfl

theorem unpack32_pack32 (n : Nat) (h : n < 4294967296) :
    unpack32 (pack32 n) = n := by
  simp only [pack32, unpack32]
  omega

theorem take_four_of_append (x0 x1 x2 x3 : Nat) (l : List Nat) :
    (x0 :: x1 :: x2 :: x3 :: l).take 4 = [x0, x1, x2, x3] := rfl

theorem drop_four_of_append (x0 x1 x2 x3 : Nat) (l : List Nat) :
    (x0 :: x1 :: x2 :: x3 :: l).drop 4 = l := rfl

theorem recv_exact_header (n : Nat) (b : List Nat) :
    recv_exact (pack32 n ++ b) 4 = Except.ok (pack32 n, b) := by
  simp only [recv_exact, pack32, List.cons_append, List.nil_append]
  rw [if_neg (by simp only [List.length_cons]; omega)]
  simp [take_four_of_append, drop_four_of_append]

theorem recv_exact_all (b : List Nat) :
    recv_exact b b.length = Except.ok (b, []) := by
  simp [recv_exact]

theorem utf8DecodeReplace_nil : utf8DecodeReplace [] = [] := rfl

theorem recv_frame_cons (x : Nat) (t : List Nat) :
    recv_frame (x :: t) =
      (match recv_exact (x :: t) 4 with
       | Except.error e => Except.error e
       | Except.ok (header, rest) =>
         if unpack32 header > MAX_FRAME then
           Except.error FrameError.frameTooLarge
         else if unpack32 header = 0 then Except.ok (some ([], rest))
         else
           match recv_exact rest (unpack32 header) with
           | Except.error e => Except.error e
           | Except.ok (data, rest2) => Except.ok (some (data, rest2))) := rfl

theorem recv_frame_header (n : Nat) (b : List Nat) :
    recv_frame (pack32 n ++ b) =
      (if unpack32 (pack32 n) > MAX_FRAME then
         Except.error FrameError.frameTooLarge
       else if unpack32 (pack32 n) = 0 then Except.ok (some ([], b))
       else
         match recv_exact b (unpack32 (pack32 n)) with
         | Except.error e => Except.error e
         | Except.ok (data, rest2) => Except.ok (some (data, rest2))) := by
  have hc : pack32 n ++ b =
      (n / 16777216 % 256) ::
        ((n / 65536 % 256) :: ((n / 256 % 256) :: ((n % 256) :: b))) := by
    simp [pack32]
  rw [hc, recv_frame_cons, ← hc, recv_exact_header]

/-- C3: for every payload byte sequence b of at most MAX_FRAME bytes,
send_frame accepts it and emits the header plus payload, and recv_frame
on those very bytes returns exactly the payload (consuming the whole
stream), whose lossy UTF-8 decoding recv_frame_text therefore returns;
so the codec round-trips every legal payload to the lossy-decoded form
of the original bytes. -/
theorem frame_roundtrip (b : List Nat) (hb : b.length ≤ MAX_FRAME) :
    send_frame b = Except.ok (pack32 b.length ++ b) ∧
    recv_frame (pack32 b.length ++ b) = Except.ok (some (b, [])) ∧
    recv_frame_text (pack32 b.length ++ b) =
      Except.ok (some (utf8DecodeReplace b)) := by
  have hsend : send_frame b = Except.ok (pack32 b.length ++ b) := by
    simp only [send_frame]
    rw [if_neg (by omega)]
  have hlen : unpack32 (pack32 b.length) = b.length :=
    unpack32_pack32 b.length (by simp only [MAX_FRAME] at hb; omega)
  have hrecv : recv_frame (pack32 b.length ++ b) = Except.ok (some (b, [])) := by
    rw [recv_frame_header]
    simp only [hlen]
    rw [if_neg (by omega)]
    by_cases hz : b.length = 0
    · rw [if_pos hz]
      simp [List.length_eq_zero.mp hz]
    · rw [if_neg hz, recv_exact_all]
  refine ⟨hsend, hrecv, ?_⟩
  simp [recv_frame_text, hrecv]

/-- A concrete run of the round trip, at the two-byte payload 104 105. -/
theorem frame_roundtrip_witness :
    send_frame [104, 105] = Except.ok (pack32 2 ++ [104, 105]) ∧
    recv_frame (pack32 2 ++ [104, 105]) = Except.ok (some ([104, 105], [])) ∧
    recv_frame_text (pack32 2 ++ [104, 105]) =
      Except.ok (some (utf8DecodeReplace [104, 105])) :=
  frame_roundtrip [104, 105] (by decide)

/-- C4: a header declaring any length above MAX_FRAME makes recv_frame
fail with the oversized-frame error whatever bytes follow the header —
in particular with no payload bytes in the stream at all, where an
attempted payload read would instead have produced the mid-stream
ConnectionError.  Only the 4 header bytes are consumed before failing. -/
theorem oversized_frame_rejected (L : Nat) (junk : List Nat)
    (h1 : MAX_FRAME < L) (h2 : L < 4294967296) :
    recv_frame (pack32 L ++ junk) = Except.error FrameError.frameTooLarge := by
  rw [recv_frame_header]
  simp only [unpack32_pack32 L h2]
  rw [if_pos (by omega)]

/-- A concrete oversized header: length MAX_FRAME + 1 with an empty rest
of stream is rejected as too large, not as a closed connection. -/
theorem oversized_frame_rejected_witness :
    recv_frame (pack32 (MAX_FRAME + 1) ++ []) =
      Except.error FrameError.frameTooLarge :=
  oversized_frame_rejected (MAX_FRAME + 1) [] (by omega) (by decide)

/-- C7: recv_frame returns the EndOfStream sentinel (none) exactly when
the peer closes before any header byte; a close mid-header (some but
fewer than 4 bytes) or mid-payload (a valid header declaring more bytes
than follow) raises ConnectionError; and a declared length of zero
yields the empty text, not the sentinel. -/
theorem recv_frame_close_cases :
    recv_frame [] = Except.ok none ∧
    (∀ s : List Nat, s ≠ [] → s.length < 4 →
      recv_frame s = Except.error FrameError.connectionClosed) ∧
    (∀ (L : Nat) (junk : List Nat), 0 < L → L ≤ MAX_FRAME →
      junk.length < L →
      recv_frame (pack32 L ++ junk) =
        Except.error FrameError.connectionClosed) ∧
    (∀ rest : List Nat,
      recv_frame_text (pack32 0 ++ rest) = Except.ok (some [])) := by
  refine ⟨rfl, ?_, ?_, ?_⟩
  · intro s hne hlt
    match s, hne with
    | x :: t, _ =>
      rw [recv_frame_cons]
      simp only [recv_exact]
      rw [if_pos hlt]
  · intro L junk hpos hmax hshort
    have h2 : L < 4294967296 := by simp only [MAX_FRAME] at hmax; omega
    rw [recv_frame_header]
    simp only [unpack32_pack32 L h2]
    rw [if_neg (by omega), if_neg (by omega)]
    simp only [recv_exact]
    rw [if_pos hshort]
  · intro rest
    simp only [recv_frame_text, recv_frame_header]
    have h0 : unpack32 (pack32 0) = 0 := rfl
    rw [h0, if_neg (by simp [MAX_FRAME]), if_pos rfl]
    simp [utf8DecodeReplace_nil]

/-- Concrete closes: one lone header byte raises ConnectionError, and a
valid one-byte-payload header with an empty rest of stream raises
ConnectionError as well. -/
theorem recv_frame_close_cases_witness :
    recv_frame [7] = Except.error FrameError.connectionClosed ∧
    recv_frame (pack32 1 ++ []) = Except.error FrameError.connectionClosed :=
  ⟨recv_frame_close_cases.2.1 [7] (by decide) (by decide),
   recv_frame_close_cases.2.2.1 1 [] (by decide) (by decide) (by decide)⟩

/-! ## Association list lemmas -/

theorem alookup_append {α β : Type} [DecidableEq α] (l1 l2 : List (α × β))
    (k : α) :
    alookup (l1 ++ l2) k =
      match alookup l1 k with
      | some v => some v
      | none => alookup l2 k := by
  induction l1 with
  | nil => simp [alookup]
  | cons p t ih =>
    obtain ⟨a, b⟩ := p
    by_cases h : a = k <;> simp [alookup, h, ih]

theorem alookup_eq_none {α β : Type} [DecidableEq α] (l : List (α × β))
    (k : α) (h : ∀ p ∈ l, p.1 ≠ k) : alookup l k = none := by
  induction l with
  | nil => rfl
  | cons p t ih =>
    obtain ⟨a, b⟩ := p
    have ha : a ≠ k := h (a, b) (List.mem_cons_self _ _)
    simp only [alookup, if_neg ha]
    exact ih (fun q hq => h q (List.mem_cons_of_mem _ hq))

theorem alookup_aupdate {α β : Type} [DecidableEq α] (l : List (α × β))
    (k : α) (f : β → β) (q : α) :
    alookup (aupdate l k f) q =
      if q = k then (alookup l q).map f else alookup l q := by
  induction l with
  | nil => by_cases h : q = k <;> simp [alookup, aupdate, h]
  | cons p t ih =>
    obtain ⟨a, b⟩ := p
    simp only [aupdate] at ih
    dsimp only [aupdate, List.map_cons]
    by_cases hak : a = k
    · subst hak
      rw [if_pos rfl]
      by_cases haq : a = q
      · subst haq
        simp [alookup]
      · simp [alookup, haq, ih]
    · rw [if_neg hak]
      by_cases haq : a = q
      · subst haq
        simp [alookup, hak]
      · simp [alookup, haq, ih]

theorem alookup_astore {α β : Type} [DecidableEq α] (l : List (α × β))
    (k : α) (v : β) (q : α) :
    alookup (astore l k v) q = if q = k then some v else alookup l q := by
  simp only [astore]
  by_cases hk : (alookup l k).isSome
  · rw [if_pos hk, alookup_aupdate]
    by_cases hq : q = k
    · subst hq
      obtain ⟨w, hw⟩ := Option.isSome_iff_exists.mp hk
      simp [hw]
    · simp [hq]
  · rw [if_neg hk, alookup_append]
    by_cases hq : q = k
    · subst hq
      rw [Option.not_isSome_iff_eq_none] at hk
      simp [hk, alookup]
    · simp only [alookup, if_pos rfl]
      rw [if_neg hq]
      cases alookup l q <;>
        simp [alookup, if_neg (fun h : k = q => hq h.symm)]

theorem alookup_aremove {α β : Type} [DecidableEq α] (l : List (α × β))
    (k : α) (q : α) :
    alookup (aremove l k) q = if q = k then none else alookup l q := by
  induction l with
  | nil => by_cases h : q = k <;> simp [alookup, aremove, h]
  | cons p t ih =>
    obtain ⟨a, b⟩ := p
    simp only [aremove, ne_eq, decide_not] at ih ⊢
    by_cases hak : a = k
    · subst hak
      rw [List.filter_cons_of_neg (by simp)]
      rw [ih]
      by_cases hq : q = a
      · simp [hq]
      · simp [alookup, hq, Ne.symm hq]
    · rw [List.filter_cons_of_pos (by simp [hak])]
      by_cases haq : a = q
      · subst haq
        simp [alookup, hak]
      · simp [alookup, haq, ih]

/-! ## Claim C10: command argument truncation -/

/-- C10: whenever _handle_command sets a nickname, that nickname is the
at-most-32-character truncation of the argument, and whenever it creates
or joins (creating if absent) a room, the room name is the
at-most-48-character truncation of the argument; so nicknames set via
command never exceed 32 characters and rooms created via command never
exceed 48. -/
theorem command_truncation :
    (∀ (c : HClient) (line new : List Char),
       handle_command c line = CmdAction.setNick new → new.length ≤ 32) ∧
    (∀ (c : HClient) (line room : List Char),
       handle_command c line = CmdAction.doCreate room → room.length ≤ 48) ∧
    (∀ (c : HClient) (line room : List Char),
       handle_command c line = CmdAction.doJoin room → room.length ≤ 48) := by
  refine ⟨?_, ?_, ?_⟩ <;>
    · intro c line a h
      simp only [handle_command] at h
      repeat' split at h
      all_goals cases h
      all_goals simp [List.length_take]

/-- A concrete run: a 36-character nickname argument is cut to its first
32 characters, and that truncated nickname satisfies the bound via the
theorem. -/
theorem command_truncation_witness :
    handle_command initialClient
        "/nick abcdefghijklmnopqrstuvwxyz0123456789".data =
      CmdAction.setNick "abcdefghijklmnopqrstuvwxyz012345".data ∧
    ("abcdefghijklmnopqrstuvwxyz012345".data).length ≤ 32 := by
  refine ⟨by decide, ?_⟩
  exact command_truncation.1 initialClient
    "/nick abcdefghijklmnopqrstuvwxyz0123456789".data
    "abcdefghijklmnopqrstuvwxyz012345".data (by decide)

/-! ## Claim C2: there is no nickname handshake -/

/-- C2 counterexample: from the freshly accepted client state, the first
received frame is NOT read as a nickname — after processing the frame
containing bob, the nickname is still the dataclass default anon and
the handler replied with the no-room advisory instead; an empty first
frame does not abort the session (the loop continues); and the accept
loop had already registered the session (with nickname anon, no room)
before the handler read anything. -/
theorem no_nickname_handshake :
    (handleFrame initialClient (some "bob".data)).2.1.nickname =
      "anon".data ∧
    (handleFrame initialClient (some "bob".data)).2.1.nickname ≠
      "bob".data ∧
    (handleFrame initialClient (some "bob".data)).2.2 =
      HandlerEffect.replyNoRoom ∧
    (handleFrame initialClient (some [])).1 = LoopStep.continue ∧
    acceptClient [] 0 = [(0, initialClient)] := by
  exact ⟨by decide, by decide, by decide, by decide, rfl⟩

/-- C2 (amended): the connection handler performs no handshake.  The
accept loop registers the session server-wide, with default nickname
anon and no room, before the handler reads a frame; the handler sends
the fixed greeting and enters the Active loop directly, where
end-of-stream exits the loop, a frame that strips to nothing is ignored
(not an abort), a non-command frame with no current room just draws the
advisory reply, and no iteration of the loop body itself mutates the
client record (the nickname changes only through the /nick command). -/
theorem handler_entry_behavior :
    (∀ (clients : List (ClientId × HClient)) (cid : ClientId),
       (∀ p ∈ clients, p.1 ≠ cid) →
       alookup (acceptClient clients cid) cid = some initialClient) ∧
    (∀ c : HClient,
       handleFrame c none = (LoopStep.exit, c, HandlerEffect.nothing)) ∧
    (∀ (c : HClient) (raw : List Char), pyStrip raw = [] →
       handleFrame c (some raw) =
         (LoopStep.continue, c, HandlerEffect.nothing)) ∧
    (∀ (c : HClient) (raw : List Char), c.room = none →
       pyStrip raw ≠ [] → startsWithSlash (pyStrip raw) = false →
       handleFrame c (some raw) =
         (LoopStep.continue, c, HandlerEffect.replyNoRoom)) ∧
    (∀ (c : HClient) (msg : Option (List Char)),
       (handleFrame c msg).2.1 = c) := by
  refine ⟨?_, ?_, ?_, ?_, ?_⟩
  · intro clients cid h
    simp only [acceptClient]
    rw [alookup_append, alookup_eq_none clients cid h]
    simp [alookup]
  · intro c
    rfl
  · intro c raw h
    simp [handleFrame, h]
  · intro c raw hr h hs
    simp only [handleFrame]
    rw [if_neg h, if_neg (by simp [hs]), hr]
  · intro c msg
    simp only [handleFrame]
    repeat' split
    all_goals rfl

/-- Concrete runs of the amended handler behavior: registration of
client 0 into the empty registry, end-of-stream exit, a
whitespace-only frame skipped, and the no-room advisory for a chat
frame from the fresh client. -/
theorem handler_entry_behavior_witness :
    alookup (acceptClient [] 0) 0 = some initialClient ∧
    handleFrame initialClient none =
      (LoopStep.exit, initialClient, HandlerEffect.nothing) ∧
    handleFrame initialClient (some "  ".data) =
      (LoopStep.continue, initialClient, HandlerEffect.nothing) ∧
    handleFrame initialClient (some "oi".data) =
      (LoopStep.continue, initialClient, HandlerEffect.replyNoRoom) :=
  ⟨handler_entry_behavior.1 [] 0 (by simp),
   handler_entry_behavior.2.1 initialClient,
   handler_entry_behavior.2.2.1 initialClient "  ".data (by decide),
   handler_entry_behavior.2.2.2.1 initialClient "oi".data rfl (by decide)
     (by decide)⟩

/-! ## Registry lemmas -/

theorem alookup_mem {α β : Type} [DecidableEq α] (l : List (α × β)) (k : α)
    (v : β) (h : alookup l k = some v) : (k, v) ∈ l := by
  induction l with
  | nil => cases h
  | cons p t ih =>
    obtain ⟨a, b⟩ := p
    simp only [alookup] at h
    by_cases hak : a = k
    · subst hak
      rw [if_pos rfl] at h
      injection h with h
      subst h
      exact List.mem_cons_self _ _
    · rw [if_neg hak] at h
      exact List.mem_cons_of_mem _ (ih h)

theorem alookup_aupdate_isSome {α β : Type} [DecidableEq α]
    (l : List (α × β)) (k : α) (f : β → β) (q : α) :
    (alookup (aupdate l k f) q).isSome = (alookup l q).isSome := by
  rw [alookup_aupdate]
  by_cases h : q = k
  · rw [if_pos h]
    cases alookup l q <;> simp
  · rw [if_neg h]

theorem aupdate_id {α β : Type} [DecidableEq α] (l : List (α × β)) (k : α) :
    aupdate l k (fun v => v) = l := by
  simp only [aupdate]
  have h : (fun p : α × β => if p.1 = k then (p.1, p.2) else p) = id := by
    funext p
    obtain ⟨a, b⟩ := p
    by_cases hp : a = k <;> simp [hp]
  rw [h, List.map_id]

theorem sweepDead_nil (st : RegState) (room : RoomName) :
    sweepDead st room [] = st := by
  have hf : ∀ m : List ClientId,
      m.filter (fun x => decide (x ∉ ([] : List ClientId))) = m := by
    intro m
    simp
  cases st with
  | mk rooms roomOf registered =>
    simp only [sweepDead, hf]
    rw [aupdate_id]

/-- When every target of a broadcast is alive and none of its sends
fail, the dead list is empty and the broadcast leaves the registry
state untouched. -/
theorem broadcastModel_all_alive (st : RegState) (room : RoomName)
    (alive sendFails : ClientId → Bool)
    (h : ∀ x ∈ (alookup st.rooms room).getD [], alive x = true ∧
      sendFails x = false) :
    (broadcastModel st room alive sendFails).state = st := by
  simp only [broadcastModel]
  have hd : ((alookup st.rooms room).getD []).filter
      (fun c => !(if c ∈ (alookup st.rooms room).getD [] then
        alive c && !(sendFails c) else alive c)) = [] := by
    rw [List.filter_eq_nil_iff]
    intro a ha
    rw [if_pos ha, (h a ha).1, (h a ha).2]
    simp
  rw [hd, sweepDead_nil]

/-! ## Claim C8: leave_room is a no-op for a session in no room -/

/-- C8: for a client whose room field is absent, leave_room — the whole
method, departure broadcast included — returns with the state unchanged
and no departure notice, and a second call in a row does exactly the
same. -/
theorem leave_room_noop (st : RegState) (alive sendFails : ClientId → Bool)
    (c : ClientId) (h : alookup st.roomOf c = none) :
    leave_room st alive sendFails c = (st, none, alive) ∧
    leave_room (leave_room st alive sendFails c).1 alive sendFails c =
      (st, none, alive) := by
  have h1 : leaveRoomLocked st c = (st, none) := by
    simp [leaveRoomLocked, h]
  have h2 : leave_room st alive sendFails c = (st, none, alive) := by
    simp [leave_room, h1]
  refine ⟨h2, ?_⟩
  rw [h2]
  exact h2

/-- A concrete double no-op: client 0 has no room in the initial server
state, and both consecutive leave_room calls return it unchanged with
no notice. -/
theorem leave_room_noop_witness :
    leave_room initialServer (fun _ => true) (fun _ => false) 0 =
      (initialServer, none, fun _ => true) ∧
    leave_room
        (leave_room initialServer (fun _ => true) (fun _ => false) 0).1
        (fun _ => true) (fun _ => false) 0 =
      (initialServer, none, fun _ => true) :=
  leave_room_noop initialServer (fun _ => true) (fun _ => false) 0 rfl

/-! ## Claim C6: rooms are never deleted -/

/-- C6 counterexample: client 0 is the sole member of the non-seeded
room sala; after its departure the room's entry is still in the
registry with an empty member set, and list_rooms still lists it (with
count 0) — the room entry is not deleted, contradicting the claimed
cleanup policy. -/
theorem room_not_deleted :
    alookup (leave_room c6State (fun _ => true) (fun _ => false) 0).1.rooms
        "sala".data = some [] ∧
    ("sala".data, 0) ∈
      list_rooms (leave_room c6State (fun _ => true) (fun _ => false) 0).1 := by
  constructor <;> decide

theorem leaveRoomLocked_rooms_isSome (st : RegState) (c : ClientId)
    (r : RoomName) :
    (alookup (leaveRoomLocked st c).1.rooms r).isSome =
      (alookup st.rooms r).isSome := by
  simp only [leaveRoomLocked]
  split
  · split
    · exact alookup_aupdate_isSome _ _ _ _
    · rfl
  · rfl

theorem broadcastModel_rooms_isSome (st : RegState) (room : RoomName)
    (alive sendFails : ClientId → Bool) (r : RoomName) :
    (alookup (broadcastModel st room alive sendFails).state.rooms r).isSome =
      (alookup st.rooms r).isSome := by
  simp only [broadcastModel, sweepDead]
  exact alookup_aupdate_isSome _ _ _ _

/-- C6 (amended): no cleanup policy exists.  A departure never deletes
any room entry — after any leave_room call a room name has an entry
exactly when it had one before, so an emptied room persists — and
list_rooms lists every registered room, emptied ones included; nor are
any rooms seeded at startup (the server begins with an empty rooms
dict, so no room is exempt by seeding). -/
theorem room_persistence :
    (∀ (st : RegState) (alive sendFails : ClientId → Bool) (c : ClientId)
       (r : RoomName),
       (alookup (leave_room st alive sendFails c).1.rooms r).isSome =
         (alookup st.rooms r).isSome) ∧
    (∀ (st : RegState) (r : RoomName) (m : List ClientId),
       alookup st.rooms r = some m → (r, m.length) ∈ list_rooms st) ∧
    list_rooms initialServer = [] := by
  refine ⟨?_, ?_, rfl⟩
  · intro st alive sendFails c r
    simp only [leave_room]
    cases h : (leaveRoomLocked st c).2 with
    | none =>
      exact leaveRoomLocked_rooms_isSome st c r
    | some room =>
      rw [broadcastModel_rooms_isSome]
      exact leaveRoomLocked_rooms_isSome st c r
  · intro st r m h
    have hm := alookup_mem st.rooms r m h
    simpa [list_rooms] using List.mem_map_of_mem (fun p => (p.1, p.2.length)) hm

/-- Concrete runs of the amended statement: the departure of client 0
from sala keeps the room's key present, and sala appears in list_rooms
of the resulting state. -/
theorem room_persistence_witness :
    (alookup (leave_room c6State (fun _ => true) (fun _ => false) 0).1.rooms
        "sala".data).isSome = (alookup c6State.rooms "sala".data).isSome ∧
    ("sala".data, 1) ∈ list_rooms c6State :=
  ⟨room_persistence.1 c6State (fun _ => true) (fun _ => false) 0 "sala".data,
   room_persistence.2.1 c6State "sala".data [0] (by decide)⟩

/-! ## Claim C5: broadcast delivery and the dead sweep -/

theorem memberOf_sweep_room (st : RegState) (room : RoomName)
    (dead : List ClientId) (x : ClientId) :
    (memberOf (sweepDead st room dead) x room = true ↔
      (memberOf st x room = true ∧ x ∉ dead)) := by
  simp only [memberOf, sweepDead, decide_eq_true_iff, alookup_aupdate,
    if_true]
  cases alookup st.rooms room with
  | none => simp
  | some m => simp [List.mem_filter]

theorem memberOf_sweep_other (st : RegState) (room : RoomName)
    (dead : List ClientId) (x : ClientId) (ρ : RoomName) (h : ρ ≠ room) :
    memberOf (sweepDead st room dead) x ρ = memberOf st x ρ := by
  simp only [memberOf, sweepDead, alookup_aupdate]
  rw [decide_eq_decide]
  rw [if_neg h]

theorem registered_sweep (st : RegState) (room : RoomName)
    (dead : List ClientId) (x : ClientId) :
    (x ∈ (sweepDead st room dead).registered ↔
      x ∈ st.registered ∧ x ∉ dead) := by
  simp [sweepDead, List.mem_filter]

/-- C5: _broadcast is a total function on the registry state — Client
send swallows every exception, so no send failure reaches the caller —
and in one call it (i) attempts delivery to exactly the clients that
were members of the room when the snapshot was taken (so nobody joining
after the snapshot is sent to), (ii) leaves every target that was alive
and whose send succeeded alive, with its memberships and registry entry
intact, and (iii) marks every target that was dead or whose send failed
as not alive and removes it from the room's member set and from the
server-wide registry.  The room fields are untouched. -/
theorem broadcast_behavior (st : RegState) (room : RoomName)
    (alive sendFails : ClientId → Bool) :
    (broadcastModel st room alive sendFails).targets =
      (alookup st.rooms room).getD [] ∧
    (∀ c ∈ (broadcastModel st room alive sendFails).targets,
       alive c = false ∨ sendFails c = true →
       (broadcastModel st room alive sendFails).aliveAfter c = false ∧
       memberOf (broadcastModel st room alive sendFails).state c room =
         false ∧
       c ∉ (broadcastModel st room alive sendFails).state.registered) ∧
    (∀ c : ClientId, alive c = true → sendFails c = false →
       (broadcastModel st room alive sendFails).aliveAfter c = true ∧
       (∀ ρ : RoomName,
         memberOf (broadcastModel st room alive sendFails).state c ρ =
           memberOf st c ρ) ∧
       (c ∈ (broadcastModel st room alive sendFails).state.registered ↔
         c ∈ st.registered)) ∧
    (∀ x : ClientId,
       alookup (broadcastModel st room alive sendFails).state.roomOf x =
         alookup st.roomOf x) := by
  have haliveAfter : ∀ c : ClientId,
      (broadcastModel st room alive sendFails).aliveAfter c =
        (if c ∈ (alookup st.rooms room).getD [] then
          alive c && !(sendFails c) else alive c) := fun c => rfl
  have hstate : (broadcastModel st room alive sendFails).state =
      sweepDead st room (((alookup st.rooms room).getD []).filter
        (fun x => !(if x ∈ (alookup st.rooms room).getD [] then
          alive x && !(sendFails x) else alive x))) := rfl
  refine ⟨rfl, ?_, ?_, fun x => rfl⟩
  · intro c hc hfail
    replace hc : c ∈ (alookup st.rooms room).getD [] := hc
    have halive2 : (broadcastModel st room alive sendFails).aliveAfter c =
        false := by
      rw [haliveAfter, if_pos hc]
      rcases hfail with h | h <;> simp [h]
    have hfalse : (if c ∈ (alookup st.rooms room).getD [] then
        alive c && !(sendFails c) else alive c) = false := by
      rw [← haliveAfter]
      exact halive2
    have hdead : c ∈ ((alookup st.rooms room).getD []).filter
        (fun x => !(if x ∈ (alookup st.rooms room).getD [] then
          alive x && !(sendFails x) else alive x)) := by
      rw [List.mem_filter]
      refine ⟨hc, ?_⟩
      rw [hfalse]
      rfl
    refine ⟨halive2, ?_, ?_⟩
    · rw [Bool.eq_false_iff]
      intro hmem
      rw [hstate] at hmem
      exact ((memberOf_sweep_room _ _ _ _).mp hmem).2 hdead
    · intro hreg
      rw [hstate] at hreg
      exact ((registered_sweep _ _ _ _).mp hreg).2 hdead
  · intro c ha hf
    have halive2 : (broadcastModel st room alive sendFails).aliveAfter c =
        true := by
      rw [haliveAfter]
      by_cases hc : c ∈ (alookup st.rooms room).getD []
      · rw [if_pos hc, ha, hf]
        rfl
      · rw [if_neg hc]
        exact ha
    have htrue : (if c ∈ (alookup st.rooms room).getD [] then
        alive c && !(sendFails c) else alive c) = true := by
      rw [← haliveAfter]
      exact halive2
    have hnotdead : c ∉ ((alookup st.rooms room).getD []).filter
        (fun x => !(if x ∈ (alookup st.rooms room).getD [] then
          alive x && !(sendFails x) else alive x)) := by
      rw [List.mem_filter]
      rintro ⟨-, hbad⟩
      rw [htrue] at hbad
      simp at hbad
    refine ⟨halive2, ?_, ?_⟩
    · intro ρ
      rw [hstate]
      by_cases hρ : ρ = room
      · subst hρ
        by_cases hm : memberOf st c ρ = true
        · rw [hm]
          exact (memberOf_sweep_room _ _ _ _).mpr ⟨hm, hnotdead⟩
        · rw [Bool.not_eq_true] at hm
          rw [hm, Bool.eq_false_iff]
          intro hmem
          have hin := ((memberOf_sweep_room _ _ _ _).mp hmem).1
          rw [hm] at hin
          cases hin
      · exact memberOf_sweep_other _ _ _ _ _ hρ
    · rw [hstate]
      constructor
      · intro hreg
        exact ((registered_sweep _ _ _ _).mp hreg).1
      · intro hreg
        exact (registered_sweep _ _ _ _).mpr ⟨hreg, hnotdead⟩

/-- A concrete broadcast: room sala holds clients 0 and 1, the send to
client 0 fails while client 1 stays healthy; the snapshot is exactly
the pair, client 0 ends flagged dead, out of the room, and out of the
registry, while client 1 keeps its flag, membership and registration. -/
theorem broadcast_behavior_witness :
    (broadcastModel c5State "sala".data (fun _ => true)
        (fun i => decide (i = 0))).targets = [0, 1] ∧
    ((broadcastModel c5State "sala".data (fun _ => true)
        (fun i => decide (i = 0))).aliveAfter 0 = false ∧
      memberOf (broadcastModel c5State "sala".data (fun _ => true)
        (fun i => decide (i = 0))).state 0 "sala".data = false ∧
      0 ∉ (broadcastModel c5State "sala".data (fun _ => true)
        (fun i => decide (i = 0))).state.registered) ∧
    ((broadcastModel c5State "sala".data (fun _ => true)
        (fun i => decide (i = 0))).aliveAfter 1 = true) := by
  refine ⟨?_, ?_, ?_⟩
  · decide
  · exact (broadcast_behavior c5State "sala".data (fun _ => true)
      (fun i => decide (i = 0))).2.1 0 (by decide) (Or.inr (by decide))
  · exact ((broadcast_behavior c5State "sala".data (fun _ => true)
      (fun i => decide (i = 0))).2.2.1 1 rfl (by decide)).1

/-! ## Claim C9: re-joining the current room is idempotent -/

theorem not_mem_setDiscard (m : List ClientId) (c : ClientId) :
    c ∉ setDiscard m c := by
  simp [setDiscard]

theorem mem_setAdd_setDiscard (m : List ClientId) (c x : ClientId)
    (hc : c ∈ m) : (x ∈ setAdd (setDiscard m c) c ↔ x ∈ m) := by
  rw [setAdd, if_neg (not_mem_setDiscard m c)]
  simp only [setDiscard, List.mem_append, List.mem_filter,
    List.mem_singleton]
  constructor
  · rintro (⟨h1, -⟩ | rfl)
    · exact h1
    · exact hc
  · intro hx
    by_cases hxc : x = c
    · exact Or.inr hxc
    · exact Or.inl ⟨hx, by simp [hxc]⟩

theorem count_setAdd_setDiscard (m : List ClientId) (c : ClientId) :
    List.count c (setAdd (setDiscard m c) c) = 1 := by
  rw [setAdd, if_neg (not_mem_setDiscard m c)]
  rw [List.count_append, List.count_eq_zero.mpr (not_mem_setDiscard m c)]
  simp

/-- C9: when client c is already a member of room r (its room field is
r and it is in r's member set), join_room on (c, r) — critical section
and both notice broadcasts included, with every member healthy so the
notice sweeps find nobody dead — returns r and leaves the registry
state unchanged up to set equality: every membership fact, every room
field, and the server-wide registry are as before, and c is in r's
member set exactly once. -/
theorem rejoin_idempotent (st : RegState) (alive sendFails : ClientId → Bool)
    (c : ClientId) (r : RoomName)
    (hroom : alookup st.roomOf c = some r)
    (hmem : memberOf st c r = true)
    (hnodup : MembersNodup st)
    (hlive : ∀ x : ClientId, memberOf st x r = true →
      alive x = true ∧ sendFails x = false) :
    (join_room st alive sendFails c r).2.2 = r ∧
    (∀ (x : ClientId) (ρ : RoomName),
      memberOf (join_room st alive sendFails c r).1 x ρ =
        memberOf st x ρ) ∧
    (∀ x : ClientId,
      alookup (join_room st alive sendFails c r).1.roomOf x =
        alookup st.roomOf x) ∧
    (join_room st alive sendFails c r).1.registered = st.registered ∧
    List.count c
        ((alookup (join_room st alive sendFails c r).1.rooms r).getD [])
      = 1 := by
  have hmem' : c ∈ (alookup st.rooms r).getD [] := by
    simpa [memberOf] using hmem
  obtain ⟨m, hm⟩ : ∃ m, alookup st.rooms r = some m := by
    cases hq : alookup st.rooms r with
    | none =>
      rw [hq] at hmem'
      simp at hmem'
    | some m => exact ⟨m, rfl⟩
  rw [hm] at hmem'
  simp only [Option.getD_some] at hmem'
  have hAdd : setAdd m c = m := by
    rw [setAdd, if_pos hmem']
  have hnd : m.Nodup := hnodup (r, m) (alookup_mem _ _ _ hm)
  have hisSome : (alookup st.rooms r).isSome = true := by
    rw [hm]
    rfl
  by_cases hr : r = []
  · -- the room field is the empty name: Python finds it falsy, so the
    -- discard step is skipped; the re-add is a set no-op.
    have hcond : ¬(r ≠ [] ∧ c ∈ (alookup st.rooms r).getD []) :=
      fun h => h.1 hr
    have hJ : joinRoomLocked st c r =
        ({ rooms := aupdate st.rooms r (fun mm => setAdd mm c),
           roomOf := astore st.roomOf c r,
           registered := st.registered }, none) := by
      simp only [joinRoomLocked, hisSome, if_true, hroom]
      rw [if_neg hcond]
    have hrooms : ∀ ρ, alookup (joinRoomLocked st c r).1.rooms ρ =
        alookup st.rooms ρ := by
      intro ρ
      rw [hJ]
      dsimp only
      rw [alookup_aupdate]
      by_cases hρ : ρ = r
      · subst hρ
        rw [if_pos rfl, hm]
        simp [hAdd]
      · rw [if_neg hρ]
    have hmembers : ∀ (x : ClientId) (ρ : RoomName),
        memberOf (joinRoomLocked st c r).1 x ρ = memberOf st x ρ := by
      intro x ρ
      simp only [memberOf, hrooms]
    have hroomOf : ∀ x, alookup (joinRoomLocked st c r).1.roomOf x =
        alookup st.roomOf x := by
      intro x
      rw [hJ]
      dsimp only
      rw [alookup_astore]
      by_cases hx : x = c
      · subst hx
        rw [if_pos rfl, hroom]
      · rw [if_neg hx]
    have hb2 : (broadcastModel (joinRoomLocked st c r).1 r alive
        sendFails).state = (joinRoomLocked st c r).1 := by
      apply broadcastModel_all_alive
      intro x hx
      rw [hrooms r] at hx
      refine hlive x ?_
      simpa [memberOf] using hx
    have hfull1 : (join_room st alive sendFails c r).1 =
        (broadcastModel (joinRoomLocked st c r).1 r alive
          sendFails).state := by
      simp only [join_room, hJ]
    refine ⟨rfl, ?_, ?_, ?_, ?_⟩
    · intro x ρ
      rw [hfull1, hb2]
      exact hmembers x ρ
    · intro x
      rw [hfull1, hb2]
      exact hroomOf x
    · rw [hfull1, hb2, hJ]
    · rw [hfull1, hb2, hrooms r, hm]
      simp only [Option.getD_some]
      exact List.count_eq_one_of_mem hnd hmem'
  · -- nonempty room name: the client is discarded from r and re-added
    -- to r inside the same critical section.
    have hJ : joinRoomLocked st c r =
        ({ rooms := aupdate (aupdate st.rooms r (fun mm => setDiscard mm c))
             r (fun mm => setAdd mm c),
           roomOf := astore st.roomOf c r,
           registered := st.registered }, some r) := by
      simp [joinRoomLocked, hm, hroom, hr, hmem']
    have hrooms : ∀ ρ, alookup (joinRoomLocked st c r).1.rooms ρ =
        if ρ = r then some (setAdd (setDiscard m c) c)
        else alookup st.rooms ρ := by
      intro ρ
      rw [hJ]
      dsimp only
      rw [alookup_aupdate, alookup_aupdate]
      by_cases hρ : ρ = r
      · subst hρ
        rw [if_pos rfl, if_pos rfl, if_pos rfl, hm]
        rfl
      · rw [if_neg hρ, if_neg hρ, if_neg hρ]
    have hmembers : ∀ (x : ClientId) (ρ : RoomName),
        memberOf (joinRoomLocked st c r).1 x ρ = memberOf st x ρ := by
      intro x ρ
      by_cases hρ : ρ = r
      · subst hρ
        simp only [memberOf, hrooms, eq_self_iff_true, if_true, hm,
          Option.getD_some]
        rw [decide_eq_decide]
        exact mem_setAdd_setDiscard m c x hmem'
      · simp only [memberOf, hrooms, if_neg hρ]
    have hroomOf : ∀ x, alookup (joinRoomLocked st c r).1.roomOf x =
        alookup st.roomOf x := by
      intro x
      rw [hJ]
      dsimp only
      rw [alookup_astore]
      by_cases hx : x = c
      · subst hx
        rw [if_pos rfl, hroom]
      · rw [if_neg hx]
    have hliveJ : ∀ x ∈ (alookup (joinRoomLocked st c r).1.rooms r).getD [],
        alive x = true ∧ sendFails x = false := by
      intro x hx
      refine hlive x ?_
      have : memberOf (joinRoomLocked st c r).1 x r = true := by
        simpa [memberOf] using hx
      rw [hmembers x r] at this
      exact this
    have hb1 : (broadcastModel (joinRoomLocked st c r).1 r alive
        sendFails).state = (joinRoomLocked st c r).1 :=
      broadcastModel_all_alive _ _ _ _ hliveJ
    have hb2 : (broadcastModel
        (broadcastModel (joinRoomLocked st c r).1 r alive sendFails).state
        r
        (broadcastModel (joinRoomLocked st c r).1 r alive
          sendFails).aliveAfter
        sendFails).state = (joinRoomLocked st c r).1 := by
      rw [hb1]
      apply broadcastModel_all_alive
      intro x hx
      obtain ⟨ha, hf⟩ := hliveJ x hx
      refine ⟨?_, hf⟩
      show (if x ∈ (alookup (joinRoomLocked st c r).1.rooms r).getD []
        then alive x && !(sendFails x) else alive x) = true
      rw [if_pos hx, ha, hf]
      rfl
    have hfull1 : (join_room st alive sendFails c r).1 =
        (broadcastModel
          (broadcastModel (joinRoomLocked st c r).1 r alive
            sendFails).state
          r
          (broadcastModel (joinRoomLocked st c r).1 r alive
            sendFails).aliveAfter
          sendFails).state := by
      simp only [join_room, hJ]
    refine ⟨rfl, ?_, ?_, ?_, ?_⟩
    · intro x ρ
      rw [hfull1, hb2]
      exact hmembers x ρ
    · intro x
      rw [hfull1, hb2]
      exact hroomOf x
    · rw [hfull1, hb2, hJ]
    · rw [hfull1, hb2, hrooms r]
      rw [if_pos rfl]
      simp only [Option.getD_some]
      exact count_setAdd_setDiscard m c

/-- A concrete rejoin: client 0 is already in sala; re-joining changes
nothing observable and reports sala back. -/
theorem rejoin_idempotent_witness :
    (join_room c6State (fun _ => true) (fun _ => false) 0 "sala".data).2.2 =
      "sala".data ∧
    memberOf (join_room c6State (fun _ => true) (fun _ => false) 0
        "sala".data).1 0 "sala".data = memberOf c6State 0 "sala".data ∧
    List.count 0
        ((alookup (join_room c6State (fun _ => true) (fun _ => false) 0
          "sala".data).1.rooms "sala".data).getD []) = 1 := by
  have h := rejoin_idempotent c6State (fun _ => true) (fun _ => false) 0
    "sala".data (by decide) (by decide)
    (by
      intro p hp
      rw [show c6State.rooms = [("sala".data, [0])] from rfl,
        List.mem_singleton] at hp
      subst hp
      decide)
    (fun x hx => ⟨rfl, rfl⟩)
  exact ⟨h.1, h.2.1 0 "sala".data, h.2.2.2.2⟩

/-! ## Claim C1: the membership agreement invariant -/

theorem memberOf_eq_true_iff (st : RegState) (x : ClientId) (ρ : RoomName) :
    memberOf st x ρ = true ↔ x ∈ (alookup st.rooms ρ).getD [] := by
  simp [memberOf]

theorem mem_setAdd_self (m : List ClientId) (c : ClientId) :
    c ∈ setAdd m c := by
  rw [setAdd]
  by_cases h : c ∈ m
  · rw [if_pos h]
    exact h
  · rw [if_neg h]
    simp

theorem mem_setAdd_ne (m : List ClientId) (c x : ClientId) (h : x ≠ c) :
    (x ∈ setAdd m c ↔ x ∈ m) := by
  rw [setAdd]
  by_cases hc : c ∈ m
  · rw [if_pos hc]
  · rw [if_neg hc]
    simp [h]

theorem mem_setDiscard (m : List ClientId) (c x : ClientId) :
    (x ∈ setDiscard m c ↔ x ∈ m ∧ x ≠ c) := by
  simp [setDiscard]

theorem getD_alookup_append_empty (l : List (RoomName × List ClientId))
    (room ρ : RoomName) :
    (alookup (l ++ [(room, [])]) ρ).getD [] = (alookup l ρ).getD [] := by
  rw [alookup_append]
  cases alookup l ρ with
  | some v => rfl
  | none =>
    simp only [alookup]
    by_cases h : room = ρ <;> simp [h]

/-- The critical section of leave_room preserves the full agreement
invariant and the absence of empty room names. -/
theorem leaveRoomLocked_preserves (st : RegState) (c : ClientId)
    (hInv : MembershipInv st) (hNo : NoEmptyRoomName st) :
    MembershipInv (leaveRoomLocked st c).1 ∧
    NoEmptyRoomName (leaveRoomLocked st c).1 := by
  cases hc : alookup st.roomOf c with
  | none =>
    have hL : leaveRoomLocked st c = (st, none) := by
      simp only [leaveRoomLocked, hc]
    rw [hL]
    exact ⟨hInv, hNo⟩
  | some r0 =>
    have hr0 : r0 ≠ [] := by
      intro he
      exact hNo c (by rw [hc, he])
    have hcm : c ∈ (alookup st.rooms r0).getD [] := by
      rw [← memberOf_eq_true_iff]
      exact (hInv c r0).mpr hc
    have hL : leaveRoomLocked st c =
        ({ rooms := aupdate st.rooms r0 (fun mm => setDiscard mm c),
           roomOf := aremove st.roomOf c,
           registered := st.registered }, some r0) := by
      simp only [leaveRoomLocked, hc]
      rw [if_pos ⟨hr0, hcm⟩]
    rw [hL]
    constructor
    · intro x ρ
      rw [memberOf_eq_true_iff]
      dsimp only
      rw [alookup_aremove, alookup_aupdate]
      by_cases hx : x = c
      · subst hx
        rw [if_pos rfl]
        constructor
        · intro hmem
          by_cases hρ : ρ = r0
          · rw [if_pos hρ] at hmem
            subst hρ
            cases ho : alookup st.rooms ρ with
            | none =>
              rw [ho] at hmem
              simp at hmem
            | some m0 =>
              rw [ho] at hmem
              simp only [Option.map_some', Option.getD_some] at hmem
              exact absurd ((mem_setDiscard m0 x x).mp hmem).2 (by simp)
          · rw [if_neg hρ] at hmem
            have : memberOf st x ρ = true := by
              rw [memberOf_eq_true_iff]
              exact hmem
            have h2 := (hInv x ρ).mp this
            rw [hc] at h2
            injection h2 with h2
            exact absurd h2.symm hρ
        · intro h
          cases h
      · rw [if_neg hx]
        by_cases hρ : ρ = r0
        · rw [if_pos hρ]
          cases ho : alookup st.rooms ρ with
          | none =>
            simp only [Option.map_none', Option.getD_none]
            constructor
            · intro h
              cases h
            · intro h
              have h2 : memberOf st x ρ = true := (hInv x ρ).mpr h
              rw [memberOf_eq_true_iff, ho] at h2
              simp at h2
          | some m0 =>
            simp only [Option.map_some', Option.getD_some]
            rw [mem_setDiscard]
            have hbase : (x ∈ m0) ↔ alookup st.roomOf x = some ρ := by
              rw [show (x ∈ m0) ↔ memberOf st x ρ = true from by
                rw [memberOf_eq_true_iff, ho]; simp]
              exact hInv x ρ
            constructor
            · intro h
              exact hbase.mp h.1
            · intro h
              exact ⟨hbase.mpr h, hx⟩
        · rw [if_neg hρ]
          rw [← memberOf_eq_true_iff]
          exact hInv x ρ
    · intro x
      dsimp only
      rw [alookup_aremove]
      by_cases hx : x = c
      · rw [if_pos hx]
        intro h
        cases h
      · rw [if_neg hx]
        exact hNo x

/-- The dead sweep of _broadcast preserves the forward half of the
invariant, the at-most-one-room property, and the full invariant for
clients still in the server-wide registry. -/
theorem sweepDead_weak_preserves (st : RegState) (room : RoomName)
    (dead : List ClientId) (hInv : MembershipInv st) :
    ForwardInv (sweepDead st room dead) ∧
    AtMostOneRoom (sweepDead st room dead) ∧
    RegisteredInv (sweepDead st room dead) := by
  have hfwd : ForwardInv (sweepDead st room dead) := by
    intro x ρ hmem
    have hst : memberOf st x ρ = true := by
      by_cases hρ : ρ = room
      · subst hρ
        exact ((memberOf_sweep_room st ρ dead x).mp hmem).1
      · rw [← memberOf_sweep_other st room dead x ρ hρ]
        exact hmem
    show alookup st.roomOf x = some ρ
    exact (hInv x ρ).mp hst
  refine ⟨hfwd, ?_, ?_⟩
  · intro x r1 r2 h1 h2
    exact Option.some.inj ((hfwd x r1 h1).symm.trans (hfwd x r2 h2))
  · intro x ρ hreg
    have hnd : x ∉ dead :=
      ((registered_sweep st room dead x).mp hreg).2
    constructor
    · intro hmem
      exact hfwd x ρ hmem
    · intro hsome
      have hst : memberOf st x ρ = true := (hInv x ρ).mpr hsome
      by_cases hρ : ρ = room
      · subst hρ
        exact (memberOf_sweep_room st ρ dead x).mpr ⟨hst, hnd⟩
      · rw [memberOf_sweep_other st room dead x ρ hρ]
        exact hst

theorem mem_getD_aupdate_discard (L : List (RoomName × List ClientId))
    (r0 ρ : RoomName) (c x : ClientId) :
    (x ∈ (alookup (aupdate L r0 (fun mm => setDiscard mm c)) ρ).getD [] ↔
      (x ∈ (alookup L ρ).getD [] ∧ (ρ = r0 → x ≠ c))) := by
  rw [alookup_aupdate]
  by_cases hρ : ρ = r0
  · rw [if_pos hρ]
    cases ho : alookup L ρ with
    | none => simp
    | some m => simp [mem_setDiscard, hρ]
  · rw [if_neg hρ]
    simp [hρ]

theorem mem_getD_aupdate_add (L : List (RoomName × List ClientId))
    (room ρ : RoomName) (c x : ClientId)
    (hpres : (alookup L room).isSome = true) :
    (x ∈ (alookup (aupdate L room (fun mm => setAdd mm c)) ρ).getD [] ↔
      (x ∈ (alookup L ρ).getD [] ∨ (ρ = room ∧ x = c))) := by
  rw [alookup_aupdate]
  by_cases hρ : ρ = room
  · rw [if_pos hρ]
    subst hρ
    obtain ⟨m, hm⟩ := Option.isSome_iff_exists.mp hpres
    rw [hm]
    simp only [Option.map_some', Option.getD_some]
    by_cases hx : x = c
    · subst hx
      simp [mem_setAdd_self]
    · rw [mem_setAdd_ne m c x hx]
      simp [hx]
  · rw [if_neg hρ]
    simp [hρ]

/-- Core of the join preservation, previous-room-member case: the
client is discarded from its previous room r0 and added to the target
room, and the room field moves to the target, all over any base rooms
list L that agrees with the original on memberships and holds the
target room. -/
theorem join_core_preserves (st : RegState) (c : ClientId)
    (room r0 : RoomName) (L : List (RoomName × List ClientId))
    (hInv : MembershipInv st) (hNo : NoEmptyRoomName st) (hne : room ≠ [])
    (hL : ∀ ρ, (alookup L ρ).getD [] = (alookup st.rooms ρ).getD [])
    (hpres : (alookup L room).isSome = true)
    (hc : alookup st.roomOf c = some r0) :
    MembershipInv
      { rooms := aupdate (aupdate L r0 (fun mm => setDiscard mm c)) room
          (fun mm => setAdd mm c),
        roomOf := astore st.roomOf c room,
        registered := st.registered } ∧
    NoEmptyRoomName
      { rooms := aupdate (aupdate L r0 (fun mm => setDiscard mm c)) room
          (fun mm => setAdd mm c),
        roomOf := astore st.roomOf c room,
        registered := st.registered } := by
  have hpres2 : (alookup (aupdate L r0 (fun mm => setDiscard mm c))
      room).isSome = true := by
    rw [alookup_aupdate_isSome]
    exact hpres
  constructor
  · intro x ρ
    rw [memberOf_eq_true_iff]
    dsimp only
    rw [mem_getD_aupdate_add _ _ _ _ _ hpres2, mem_getD_aupdate_discard,
      hL ρ, alookup_astore]
    by_cases hx : x = c
    · subst hx
      rw [if_pos rfl]
      constructor
      · rintro (⟨hm, himp⟩ | ⟨hρ, -⟩)
        · have h2 := (hInv x ρ).mp (by rw [memberOf_eq_true_iff]; exact hm)
          rw [hc] at h2
          injection h2 with h2
          exact absurd rfl (himp h2.symm)
        · rw [hρ]
      · intro hsome
        injection hsome with he
        exact Or.inr ⟨he.symm, rfl⟩
    · rw [if_neg hx]
      constructor
      · rintro (⟨hm, -⟩ | ⟨-, hxc⟩)
        · exact (hInv x ρ).mp (by rw [memberOf_eq_true_iff]; exact hm)
        · exact absurd hxc hx
      · intro hsome
        refine Or.inl ⟨?_, fun _ => hx⟩
        rw [← memberOf_eq_true_iff]
        exact (hInv x ρ).mpr hsome
  · intro x
    dsimp only
    rw [alookup_astore]
    by_cases hx : x = c
    · rw [if_pos hx]
      intro hcontra
      injection hcontra with he
      exact hne he
    · rw [if_neg hx]
      exact hNo x

/-- Core of the join preservation, no-previous-room case: the client is
only added to the target room. -/
theorem join_core_preserves_none (st : RegState) (c : ClientId)
    (room : RoomName) (L : List (RoomName × List ClientId))
    (hInv : MembershipInv st) (hNo : NoEmptyRoomName st) (hne : room ≠ [])
    (hL : ∀ ρ, (alookup L ρ).getD [] = (alookup st.rooms ρ).getD [])
    (hpres : (alookup L room).isSome = true)
    (hc : alookup st.roomOf c = none) :
    MembershipInv
      { rooms := aupdate L room (fun mm => setAdd mm c),
        roomOf := astore st.roomOf c room,
        registered := st.registered } ∧
    NoEmptyRoomName
      { rooms := aupdate L room (fun mm => setAdd mm c),
        roomOf := astore st.roomOf c room,
        registered := st.registered } := by
  constructor
  · intro x ρ
    rw [memberOf_eq_true_iff]
    dsimp only
    rw [mem_getD_aupdate_add _ _ _ _ _ hpres, hL ρ, alookup_astore]
    by_cases hx : x = c
    · subst hx
      rw [if_pos rfl]
      constructor
      · rintro (hm | ⟨hρ, -⟩)
        · have h2 := (hInv x ρ).mp (by rw [memberOf_eq_true_iff]; exact hm)
          rw [hc] at h2
          cases h2
        · rw [hρ]
      · intro hsome
        injection hsome with he
        exact Or.inr ⟨he.symm, rfl⟩
    · rw [if_neg hx]
      constructor
      · rintro (hm | ⟨-, hxc⟩)
        · exact (hInv x ρ).mp (by rw [memberOf_eq_true_iff]; exact hm)
        · exact absurd hxc hx
      · intro hsome
        refine Or.inl ?_
        rw [← memberOf_eq_true_iff]
        exact (hInv x ρ).mpr hsome
  · intro x
    dsimp only
    rw [alookup_astore]
    by_cases hx : x = c
    · rw [if_pos hx]
      intro hcontra
      injection hcontra with he
      exact hne he
    · rw [if_neg hx]
      exact hNo x

/-- The critical section of join_room preserves the full agreement
invariant and absence of empty room names, for the nonempty room names
the command surface passes it. -/
theorem joinRoomLocked_preserves (st : RegState) (c : ClientId)
    (room : RoomName) (hInv : MembershipInv st) (hNo : NoEmptyRoomName st)
    (hne : room ≠ []) :
    MembershipInv (joinRoomLocked st c room).1 ∧
    NoEmptyRoomName (joinRoomLocked st c room).1 := by
  have hlook1 : ∀ ρ, (alookup (if (alookup st.rooms room).isSome then
      st.rooms else st.rooms ++ [(room, [])]) ρ).getD [] =
      (alookup st.rooms ρ).getD [] := by
    intro ρ
    by_cases hp : (alookup st.rooms room).isSome
    · rw [if_pos hp]
    · rw [if_neg hp]
      exact getD_alookup_append_empty st.rooms room ρ
  have hpres1 : (alookup (if (alookup st.rooms room).isSome then st.rooms
      else st.rooms ++ [(room, [])]) room).isSome = true := by
    by_cases hp : (alookup st.rooms room).isSome
    · rw [if_pos hp]
      exact hp
    · rw [if_neg hp]
      rw [alookup_append]
      rw [Option.not_isSome_iff_eq_none] at hp
      rw [hp]
      simp [alookup]
  cases hc : alookup st.roomOf c with
  | none =>
    have hJ : joinRoomLocked st c room =
        ({ rooms := aupdate (if (alookup st.rooms room).isSome then st.rooms
             else st.rooms ++ [(room, [])]) room (fun mm => setAdd mm c),
           roomOf := astore st.roomOf c room,
           registered := st.registered }, none) := by
      simp only [joinRoomLocked, hc]
    rw [hJ]
    exact join_core_preserves_none st c room _ hInv hNo hne hlook1 hpres1 hc
  | some r0 =>
    have hr0 : r0 ≠ [] := fun he => hNo c (by rw [hc, he])
    have hcm1 : c ∈ (alookup (if (alookup st.rooms room).isSome then
        st.rooms else st.rooms ++ [(room, [])]) r0).getD [] := by
      rw [hlook1 r0, ← memberOf_eq_true_iff]
      exact (hInv c r0).mpr hc
    have hJ : joinRoomLocked st c room =
        ({ rooms := aupdate (aupdate (if (alookup st.rooms room).isSome then
             st.rooms else st.rooms ++ [(room, [])]) r0
             (fun mm => setDiscard mm c)) room (fun mm => setAdd mm c),
           roomOf := astore st.roomOf c room,
           registered := st.registered }, some r0) := by
      simp only [joinRoomLocked, hc]
      rw [if_pos ⟨hr0, hcm1⟩]
    rw [hJ]
    exact join_core_preserves st c room r0 _ hInv hNo hne hlook1 hpres1 hc

theorem membershipInv_initial : MembershipInv initialServer := by
  intro c r
  simp [memberOf, initialServer, alookup]

theorem noEmptyRoomName_initial : NoEmptyRoomName initialServer := by
  intro c
  simp [initialServer, alookup]

theorem membershipInv_c6 : MembershipInv c6State := by
  intro c r
  simp only [c6State, memberOf, alookup, decide_eq_true_iff]
  by_cases hr : "sala".data = r
  · rw [if_pos hr]
    simp only [Option.getD_some]
    by_cases hc : (0 : ClientId) = c
    · rw [if_pos hc, ← hc, ← hr]
      simp
    · rw [if_neg hc]
      constructor
      · intro hmem
        rw [List.mem_singleton] at hmem
        exact absurd hmem.symm hc
      · intro h
        cases h
  · rw [if_neg hr]
    simp only [Option.getD_none]
    by_cases hc : (0 : ClientId) = c
    · rw [if_pos hc]
      constructor
      · intro h
        cases h
      · intro h
        injection h with h
        exact absurd h hr
    · rw [if_neg hc]
      constructor
      · intro h
        cases h
      · intro h
        cases h

/-- C1 counterexample: the dead-member sweep does not keep the room
registry and the room fields in agreement.  In the consistent state
where client 0 is the sole member of sala (its room field says sala),
sweeping client 0 as dead removes it from the member set and the
server-wide registry but leaves its room field pointing at sala, so
afterwards the client is in no member set while its currentRoom still
equals sala — the claimed iff invariant fails on the swept state. -/
theorem sweep_breaks_agreement :
    MembershipInv c6State ∧
    memberOf (sweepDead c6State "sala".data [0]) 0 "sala".data = false ∧
    alookup (sweepDead c6State "sala".data [0]).roomOf 0 =
      some "sala".data ∧
    ¬ MembershipInv (sweepDead c6State "sala".data [0]) := by
  refine ⟨membershipInv_c6, by decide, by decide, ?_⟩
  intro h
  have h2 := (h 0 "sala".data).mpr (by decide)
  exact absurd h2 (by decide)

/-- C1 (amended): join_room's and leave_room's critical sections do
preserve the full agreement invariant — membership in a room's set iff
the client's room field names that room, which also gives at most one
room per client — in every state with no empty room name in use (the
command surface only passes nonempty names; an empty name is falsy in
Python and would skip the removal step).  The dead-member sweep inside
_broadcast preserves only the weaker properties: membership still
implies the room field (hence at most one room per client), and the
full iff survives for clients still in the server-wide registry; the
swept clients themselves are left with a stale room field. -/
theorem registry_invariant_amended :
    (∀ (st : RegState) (c : ClientId) (room : RoomName),
       MembershipInv st → NoEmptyRoomName st → room ≠ [] →
       MembershipInv (joinRoomLocked st c room).1 ∧
       NoEmptyRoomName (joinRoomLocked st c room).1) ∧
    (∀ (st : RegState) (c : ClientId),
       MembershipInv st → NoEmptyRoomName st →
       MembershipInv (leaveRoomLocked st c).1 ∧
       NoEmptyRoomName (leaveRoomLocked st c).1) ∧
    (∀ (st : RegState) (room : RoomName) (dead : List ClientId),
       MembershipInv st →
       ForwardInv (sweepDead st room dead) ∧
       AtMostOneRoom (sweepDead st room dead) ∧
       RegisteredInv (sweepDead st room dead)) :=
  ⟨fun st c room h1 h2 h3 => joinRoomLocked_preserves st c room h1 h2 h3,
   fun st c h1 h2 => leaveRoomLocked_preserves st c h1 h2,
   fun st room dead h1 => sweepDead_weak_preserves st room dead h1⟩

/-- Concrete instances of the amended invariant statement, from the
empty initial server state: a join of client 0 into sala, a leave of
client 0, and a sweep of client 0 from sala. -/
theorem registry_invariant_amended_witness :
    MembershipInv (joinRoomLocked initialServer 0 "sala".data).1 ∧
    MembershipInv (leaveRoomLocked initialServer 0).1 ∧
    RegisteredInv (sweepDead initialServer "sala".data [0]) :=
  ⟨(registry_invariant_amended.1 initialServer 0 "sala".data
      membershipInv_initial noEmptyRoomName_initial (by decide)).1,
   (registry_invariant_amended.2.1 initialServer 0
      membershipInv_initial noEmptyRoomName_initial).1,
   (registry_invariant_amended.2.2 initialServer "sala".data [0]
      membershipInv_initial).2.2⟩

end ChatServer
